import Mathlib

/-!
Verification development for the funcX endpoint repository.

Embedded components:
* `chunk_by` from `compute_sdk/globus_compute_sdk/sdk/utils/__init__.py`.
* The interchange main loop, its idle/heartbeat state machine, the
  parent-liveness guard, and the status-report relay and shutdown
  publication, modelled from the specification (the implementation file
  `globus_compute_endpoint/endpoint/interchange.py` is not part of the
  provided sources; only its test file is).
* The durable task-queue transport (publisher/subscriber), modelled from
  the specification (the implementation file
  `funcx_endpoint/endpoint/rabbit_mq.py` is likewise absent; only its
  test file is).

The file is organised as definitions first, then theorems.
-/

namespace FuncX

/-- Embeds `chunk_by` from
`compute_sdk/globus_compute_sdk/sdk/utils/__init__.py`, lines 14-16:

  def chunk_by(iterable, size):
      to_chunk_iter = iter(iterable)
      return iter(lambda: tuple(islice(to_chunk_iter, size)), ())

Repeatedly takes `size` elements from the front; iteration stops at the
first empty tuple, so a `size` of `0` yields nothing at all, and a finite
iterable is chunked into runs of `size` with a shorter non-empty tail
chunk when `size` does not divide the length. -/
def chunk_by : List α → Nat → List (List α)
  | _, 0 => []
  | [], _ + 1 => []
  | x :: xs, n + 1 => (x :: xs).take (n + 1) :: chunk_by (xs.drop n) (n + 1)
termination_by xs _ => xs.length
decreasing_by
  simp only [List.length_cons, List.length_drop]
  omega

/-- Modelled from the spec: a Task is an opaque unit of work
`(task_id, task_buffer)` from the broker (spec section 3). -/
structure Task where
  task_id : String
  task_buffer : String
deriving DecidableEq

/-- A value stored in a status report's `global_state` mapping. -/
inductive GValue
  | str (s : String)
  | nat (n : Nat)
deriving DecidableEq

/-- Modelled from the spec: periodic health/state snapshot
`(endpoint_id, global_state, task_statuses)` (spec sections 3 and 6). -/
structure EPStatusReport where
  endpoint_id : String
  global_state : List (String × GValue)
  task_statuses : List String
deriving DecidableEq

/-- An item drained from `results_passthrough`: either a plain result
forwarded unchanged, or an inbound `EPStatusReport` republished verbatim
(spec section 4.1, main-loop step 2). -/
inductive ResultItem
  | plain (task_id : String) (data : String)
  | report (r : EPStatusReport)
deriving DecidableEq

/-- A message handed to the Publisher. -/
inductive OutboundMsg
  | resultMsg (task_id : String) (data : String)
  | statusReport (r : EPStatusReport)
deriving DecidableEq

/-- Log severities used by the interchange. -/
inductive LogLevel
  | debug
  | info
  | warning
deriving DecidableEq

/-- The log lines of the interchange, one constructor per distinct message,
carrying the variable parts (spec section 4.1):
* `enteredIdleSoft c` — "In idle state due to idle_heartbeats_soft, shut
  down in `c` seconds."
* `enteredIdleHard c` — "Possibly idle due to idle_heartbeats_hard, shut
  down in `c` seconds".
* `softLimitReached` — "Idle heartbeats reached. Shutting down."
* `hardLimitReached` — "... Shutting down ... (HARD limit)".
* `movedToActive reason` — "Moved to active state due to `reason`".
* `refusingToStart` — the "refusing to start" startup message.
* `parentGoneAway pid` — "Parent (`pid`) has gone away". -/
inductive LogMsg
  | enteredIdleSoft (countdown_s : Nat)
  | enteredIdleHard (countdown_s : Nat)
  | softLimitReached
  | hardLimitReached
  | movedToActive (reason : String)
  | refusingToStart
  | parentGoneAway (pid : Nat)
deriving DecidableEq

/-- A log line: severity plus message. -/
structure LogLine where
  level : LogLevel
  msg : LogMsg
deriving DecidableEq

/-- The process-visible status string (spec sections 4.1 and 6):
`base` is the plain title (state `ACTIVE`), `idleCountdown s` renders
as "[idle; shut down in `s`s]", and `possiblyIdleCountdown s` renders as
"[possibly idle; shut down in `s`s]". -/
inductive ProcStatus
  | base
  | idleCountdown (seconds : Nat)
  | possiblyIdleCountdown (seconds : Nat)
deriving DecidableEq

/-- Does the status value carry an idle-flavored marker? -/
def ProcStatus.isIdleFlavored : ProcStatus → Bool
  | .base => false
  | .idleCountdown _ => true
  | .possiblyIdleCountdown _ => true

/-- Modelled from the spec: heartbeat/idle configuration (spec section 3);
`idle_heartbeats_soft = 0` and `idle_heartbeats_hard = 0` are the
"disabled" sentinels. -/
structure HeartbeatConfig where
  heartbeat_period : Nat
  idle_heartbeats_soft : Nat
  idle_heartbeats_hard : Nat
deriving DecidableEq

/-- The interchange states (spec section 3). -/
inductive IcState
  | ACTIVE
  | SOFT_IDLE
  | POSSIBLY_IDLE
deriving DecidableEq

/-- Modelled from the spec: the observable state of the interchange
process — configuration, idle state machine (`state`, `idle_heartbeats`),
terminal flag (`time_to_quit`), and the histories of log lines,
process-status updates and published messages (spec sections 3 and 4.1). -/
structure Interchange where
  cfg : HeartbeatConfig
  endpoint_id : String
  parent_pid : Option Nat
  state : IcState
  idle_heartbeats : Nat
  time_to_quit : Bool
  logs : List LogLine
  proc_status : ProcStatus
  proc_status_updates : List ProcStatus
  published : List OutboundMsg
deriving DecidableEq

/-- A freshly constructed interchange: `ACTIVE`, no idle ticks, not
terminal, empty histories. -/
def initInterchange (cfg : HeartbeatConfig) (eid : String)
    (pp : Option Nat) : Interchange :=
  ⟨cfg, eid, pp, .ACTIVE, 0, false, [], .base, [], []⟩

/-- The external inputs of one tick: the drained tasks, the drained
results/reports, the actual parent process id observed this tick, and the
externally settable quiesce signal. -/
structure TickInput where
  tasks : List Task
  results : List ResultItem
  actual_ppid : Nat
  quiesce : Bool
deriving DecidableEq

/-- Per-tick parent-liveness check: when a `parent_pid` was supplied it
must still equal the actual parent id (spec section 4.1, startup
contract). -/
def parentOk (ic : Interchange) (inp : TickInput) : Bool :=
  match ic.parent_pid with
  | some p => inp.actual_ppid == p
  | none => true

/-- Forwarding of a drained result item to the Publisher: plain results
unchanged, status reports republished verbatim (spec section 4.1, step 2). -/
def relayOutbound : ResultItem → OutboundMsg
  | .plain tid data => .resultMsg tid data
  | .report r => .statusReport r

/-- The interchange's own synthesized status report for one heartbeat
(spec section 4.1, step 5). -/
def ownReport (ic : Interchange) : EPStatusReport :=
  ⟨ic.endpoint_id, [("heartbeat_period", .nat ic.cfg.heartbeat_period)], []⟩

/-- The final status report at shutdown: `heartbeat_period` forced to `0`,
the departure sentinel (spec sections 4.1 step 7 and 6). -/
def finalReport (eid : String) : EPStatusReport :=
  ⟨eid, [("heartbeat_period", .nat 0)], []⟩

/-- Lookup of one key of a `global_state` mapping. -/
def lookupState (gs : List (String × GValue)) (k : String) : Option GValue :=
  (gs.find? (fun kv => kv.1 == k)).map (fun kv => kv.2)

/-- The reason recorded in the moved-to-active log line. -/
def activityReason (inp : TickInput) : String :=
  if inp.tasks.isEmpty then "results to forward" else "pending tasks"

/-- Modelled from the spec: one iteration of the interchange main loop
(spec section 4.1).  In order: the per-tick parent re-check (parent gone →
warning log, terminal, graceful path); drains of the two queues (any
drained work is activity and resets any idle state to `ACTIVE` with a
single transition log and a cleared status string); otherwise the idle
tick increments the counter and evaluates the idle state machine (the
first idle tick of an episode logs the single entered-idle line at info,
soft-only termination at `n = S` at info, soft+hard termination at
`n = H` at warning, and the idle-flavored status string is updated on
every idle tick); relayed messages are published ahead of the tick's own
synthesized status report; finally the quiesce signal is polled. -/
def tick (ic : Interchange) (inp : TickInput) : Interchange :=
  if parentOk ic inp then
    let relayed := inp.results.map relayOutbound
    let hadActivity := !inp.tasks.isEmpty || !inp.results.isEmpty
    let ic1 :=
      if hadActivity then
        if ic.state ≠ IcState.ACTIVE then
          { ic with
            state := .ACTIVE
            idle_heartbeats := 0
            logs := ic.logs ++ [⟨.info, .movedToActive (activityReason inp)⟩]
            proc_status := .base
            proc_status_updates := ic.proc_status_updates ++ [.base] }
        else ic
      else if ic.cfg.idle_heartbeats_soft = 0 then ic
      else
        let S := ic.cfg.idle_heartbeats_soft
        let H := ic.cfg.idle_heartbeats_hard
        let hb := ic.cfg.heartbeat_period
        let n := ic.idle_heartbeats + 1
        let enteredLogs : List LogLine :=
          if n = 1 ∧ ic.state = IcState.ACTIVE then
            if H = 0 then [⟨.info, .enteredIdleSoft ((S - 1) * hb)⟩]
            else [⟨.info, .enteredIdleHard ((H - S - 1) * hb)⟩]
          else []
        let newState :=
          if ic.state = IcState.ACTIVE then
            if H = 0 then IcState.SOFT_IDLE else IcState.POSSIBLY_IDLE
          else ic.state
        let limitLogs : List LogLine :=
          if H = 0 then
            if n = S then [⟨.info, .softLimitReached⟩] else []
          else
            if n = H then [⟨.warning, .hardLimitReached⟩] else []
        let quitNow : Bool := if H = 0 then n == S else n == H
        let status :=
          if H = 0 then ProcStatus.idleCountdown ((S - n) * hb)
          else ProcStatus.possiblyIdleCountdown ((H - n) * hb)
        { ic with
          state := newState
          idle_heartbeats := n
          logs := ic.logs ++ enteredLogs ++ limitLogs
          proc_status := status
          proc_status_updates := ic.proc_status_updates ++ [status]
          time_to_quit := ic.time_to_quit || quitNow }
    { ic1 with
      published := ic1.published ++ relayed ++ [.statusReport (ownReport ic)]
      time_to_quit := ic1.time_to_quit || inp.quiesce }
  else
    { ic with
      time_to_quit := true
      logs := ic.logs ++ [⟨.warning, .parentGoneAway (ic.parent_pid.getD 0)⟩] }

/-- Modelled from the spec: the shutdown path publishes one last status
report whose `heartbeat_period` is forced to `0` (spec section 4.1,
step 7 and shutdown path). -/
def icShutdown (ic : Interchange) : Interchange :=
  { ic with
    published := ic.published ++ [.statusReport (finalReport ic.endpoint_id)] }

/-- Modelled from the spec: the main loop — one `tick` per input; once the
terminal flag is set the loop exits through the shutdown path. -/
def runLoop (ic : Interchange) : List TickInput → Interchange
  | [] => ic
  | inp :: rest =>
    let ic2 := tick ic inp
    if ic2.time_to_quit then icShutdown ic2 else runLoop ic2 rest

/-- Modelled from the spec: the startup contract — when a `parent_pid` is
supplied and differs from the actual parent id at startup, log "refusing
to start" at warning, mark terminal, and return without entering the loop
(spec section 4.1). -/
def icStart (ic : Interchange) (startup_ppid : Nat)
    (inputs : List TickInput) : Interchange :=
  match ic.parent_pid with
  | some p =>
    if startup_ppid == p then runLoop ic inputs
    else
      { ic with
        time_to_quit := true
        logs := ic.logs ++ [⟨.warning, .refusingToStart⟩] }
  | none => runLoop ic inputs

/-- `k` successive ticks on the same input, ignoring the terminal flag. -/
def tickN (ic : Interchange) (inp : TickInput) : Nat → Interchange
  | 0 => ic
  | k + 1 => tick (tickN ic inp k) inp

/-- A tick with nothing drained, a given observed parent id, and no
quiesce signal. -/
def quietTick (r : Nat) : TickInput := ⟨[], [], r, false⟩

/-- The all-idle tick used for runs without a configured parent. -/
def emptyTick : TickInput := quietTick 0

/-- The tick delivering the external quiesce signal. -/
def quiesceTick : TickInput := ⟨[], [], 0, true⟩

/-- Matcher for the entered-idle transition family of log lines. -/
def isEnteredIdleLine (l : LogLine) : Bool :=
  match l.msg with
  | .enteredIdleSoft _ => true
  | .enteredIdleHard _ => true
  | _ => false

/-- Matcher for the soft-only entered-idle log line. -/
def isEnteredIdleSoftLine (l : LogLine) : Bool :=
  match l.msg with
  | .enteredIdleSoft _ => true
  | _ => false

/-- Matcher for the limit-reached family of log lines. -/
def isLimitLine (l : LogLine) : Bool :=
  match l.msg with
  | .softLimitReached => true
  | .hardLimitReached => true
  | _ => false

/-- Matcher for the moved-to-active log line. -/
def isMovedToActiveLine (l : LogLine) : Bool :=
  match l.msg with
  | .movedToActive _ => true
  | _ => false

/-- Matcher for the refusing-to-start log line. -/
def isRefusingLine (l : LogLine) : Bool :=
  match l.msg with
  | .refusingToStart => true
  | _ => false

/-- A fresh soft-only interchange. -/
def softIc (hb S : Nat) : Interchange := initInterchange ⟨hb, S, 0⟩ "ep" none

/-- The own-report message published each heartbeat by the no-parent
models. -/
def ownReportMsg (hb : Nat) : OutboundMsg :=
  .statusReport ⟨"ep", [("heartbeat_period", .nat hb)], []⟩

/-- Closed form of the soft-only interchange after `k` idle ticks
(meaningful for `k ≤ S`). -/
def softAfter (hb S k : Nat) : Interchange where
  cfg := ⟨hb, S, 0⟩
  endpoint_id := "ep"
  parent_pid := none
  state := if k = 0 then .ACTIVE else .SOFT_IDLE
  idle_heartbeats := k
  time_to_quit := k == S
  logs := (if k = 0 then [] else [⟨.info, .enteredIdleSoft ((S - 1) * hb)⟩])
          ++ (if k = S then [⟨.info, .softLimitReached⟩] else [])
  proc_status := if k = 0 then .base else .idleCountdown ((S - k) * hb)
  proc_status_updates :=
    (List.range k).map (fun i => .idleCountdown ((S - (i + 1)) * hb))
  published := List.replicate k (ownReportMsg hb)

/-- A fresh soft+hard interchange. -/
def hardIc (hb S H : Nat) : Interchange := initInterchange ⟨hb, S, H⟩ "ep" none

/-- Closed form of the soft+hard interchange after `k` idle ticks
(meaningful for `k ≤ H`). -/
def hardAfter (hb S H k : Nat) : Interchange where
  cfg := ⟨hb, S, H⟩
  endpoint_id := "ep"
  parent_pid := none
  state := if k = 0 then .ACTIVE else .POSSIBLY_IDLE
  idle_heartbeats := k
  time_to_quit := k == H
  logs := (if k = 0 then [] else [⟨.info, .enteredIdleHard ((H - S - 1) * hb)⟩])
          ++ (if k = H then [⟨.warning, .hardLimitReached⟩] else [])
  proc_status := if k = 0 then .base else .possiblyIdleCountdown ((H - k) * hb)
  proc_status_updates :=
    (List.range k).map (fun i => .possiblyIdleCountdown ((H - (i + 1)) * hb))
  published := List.replicate k (ownReportMsg hb)

/-- A fresh interchange with idle shutdown not configured. -/
def noIdleIc (hb : Nat) (pp : Option Nat) : Interchange :=
  initInterchange ⟨hb, 0, 0⟩ "ep" pp

/-- Closed form after `k` quiet ticks when idle shutdown is not
configured. -/
def noIdleAfter (hb : Nat) (pp : Option Nat) (k : Nat) : Interchange where
  cfg := ⟨hb, 0, 0⟩
  endpoint_id := "ep"
  parent_pid := pp
  state := .ACTIVE
  idle_heartbeats := 0
  time_to_quit := false
  logs := []
  proc_status := .base
  proc_status_updates := []
  published := List.replicate k (ownReportMsg hb)

/-- Modelled from the spec: the events of the durable task-queue
transport — a Publisher publish, a delivery of the queue head to the
attached Subscriber, a Subscriber disconnect, and a reconnect (spec
section 4.2). -/
inductive QEvent (α : Type)
  | publish (m : α)
  | deliver
  | disconnect
  | reconnect

/-- Modelled from the spec: the broker-side state of one durable queue —
the queued (not yet delivered) messages in publication order, whether a
consumer is attached, and the messages delivered to consumers so far in
delivery order (spec section 4.2). -/
structure BrokerState (α : Type) where
  pending : List α
  connected : Bool
  delivered : List α

/-- Modelled from the spec: one transport event.  Publishes append to the
durable queue; a delivery hands the queue head to the attached consumer;
with no consumer attached, messages stay queued (spec section 4.2). -/
def qstep (s : BrokerState α) : QEvent α → BrokerState α
  | .publish m => { s with pending := s.pending ++ [m] }
  | .deliver =>
    if s.connected then
      match s.pending with
      | [] => s
      | m :: rest =>
        { s with pending := rest, delivered := s.delivered ++ [m] }
    else s
  | .disconnect => { s with connected := false }
  | .reconnect => { s with connected := true }

/-- A trace of transport events, applied in order. -/
def qrun (s : BrokerState α) (tr : List (QEvent α)) : BrokerState α :=
  tr.foldl qstep s

/-- A concrete mid-episode idle interchange used as a witness input. -/
def unidleWitnessIc : Interchange :=
  ⟨⟨1, 2, 0⟩, "ep", none, .SOFT_IDLE, 1, false, [], .idleCountdown 1,
    [.idleCountdown 1], []⟩

/-- A concrete tick input carrying one inbound result. -/
def unidleWitnessInput : TickInput := ⟨[], [.plain "tid" "data"], 0, false⟩

/-- A concrete inbound status report used as a witness input. -/
def relayWitnessReport : EPStatusReport := ⟨"src", [("sentinel", .str "foo")], []⟩

/-- A concrete interchange receiving the witness report. -/
def relayWitnessIc : Interchange := initInterchange ⟨1, 0, 0⟩ "ep" none

/-- The tick input delivering the witness report. -/
def relayWitnessInput : TickInput := ⟨[], [.report relayWitnessReport], 0, false⟩

/-!
## Theorems

First the lemmas about `chunk_by`, then the interchange lemmas and the
claim theorems, then the transport lemmas.
-/

theorem chunk_by_nil (n : Nat) : chunk_by ([] : List α) n = [] := by
  cases n <;> simp [chunk_by]

theorem chunk_by_cons (x : α) (xs : List α) (n : Nat) :
    chunk_by (x :: xs) (n + 1)
      = (x :: xs).take (n + 1) :: chunk_by (xs.drop n) (n + 1) := by
  rw [chunk_by]

/-- Concatenating the chunks restores the original list (positive size). -/
theorem chunk_by_flatten (n : Nat) :
    ∀ (L : Nat) (xs : List α), xs.length ≤ L → (chunk_by xs (n + 1)).flatten = xs := by
  intro L
  induction L with
  | zero =>
    intro xs hxs
    have : xs = [] := List.length_eq_zero.mp (Nat.le_zero.mp hxs)
    subst this
    simp [chunk_by_nil]
  | succ L ih =>
    intro xs hxs
    cases xs with
    | nil => simp [chunk_by_nil]
    | cons x tl =>
      rw [chunk_by_cons]
      have hlen : (tl.drop n).length ≤ L := by
        simp only [List.length_drop]
        simp only [List.length_cons] at hxs
        omega
      simp only [List.flatten_cons, ih (tl.drop n) hlen]
      simp [List.take_succ_cons, List.take_append_drop]

theorem chunk_by_ne_nil_of_arg_ne_nil {xs : List α} {n : Nat}
    (h : chunk_by xs (n + 1) ≠ []) : xs ≠ [] := by
  intro hx
  subst hx
  exact h (chunk_by_nil _)

/-- Shape of the chunks: all chunks are non-empty of length at most the
size, and all chunks except possibly the last have length exactly the
size. -/
theorem chunk_by_shape (n : Nat) :
    ∀ (L : Nat) (xs : List α), xs.length ≤ L →
      (∀ c ∈ (chunk_by xs (n + 1)).dropLast, c.length = n + 1)
      ∧ (∀ c ∈ chunk_by xs (n + 1), c ≠ [] ∧ c.length ≤ n + 1) := by
  intro L
  induction L with
  | zero =>
    intro xs hxs
    have : xs = [] := List.length_eq_zero.mp (Nat.le_zero.mp hxs)
    subst this
    simp [chunk_by_nil]
  | succ L ih =>
    intro xs hxs
    cases xs with
    | nil => simp [chunk_by_nil]
    | cons x tl =>
      rw [chunk_by_cons]
      have hlen : (tl.drop n).length ≤ L := by
        simp only [List.length_drop]
        simp only [List.length_cons] at hxs
        omega
      obtain ⟨ihDrop, ihAll⟩ := ih (tl.drop n) hlen
      constructor
      · intro c hc
        cases hrest : chunk_by (tl.drop n) (n + 1) with
        | nil => simp [hrest] at hc
        | cons r rs =>
          rw [hrest] at hc
          rw [List.dropLast_cons₂] at hc
          rcases List.mem_cons.mp hc with hceq | hcmem
          · subst hceq
            have hne : tl.drop n ≠ [] :=
              chunk_by_ne_nil_of_arg_ne_nil (by rw [hrest]; exact List.cons_ne_nil r rs)
            have hlt : n < tl.length := by
              by_contra hle
              exact hne (List.drop_eq_nil_of_le (Nat.le_of_not_lt hle))
            simp [List.length_take]
            omega
          · exact ihDrop c (by rw [hrest]; exact hcmem)
      · intro c hc
        rcases List.mem_cons.mp hc with hceq | hcmem
        · subst hceq
          refine ⟨by simp, ?_⟩
          simp [List.length_take]
        · exact ihAll c hcmem

/-- Claim C9: for every finite iterable and every chunk size at least 1,
`chunk_by` yields chunks whose concatenation equals the original sequence
in order, every chunk except possibly the last has length exactly `size`,
every chunk (the last included) is non-empty with length at most `size`,
and the empty iterable yields no chunks. -/
theorem chunk_by_spec (α : Type) (xs : List α) (size : Nat) (hs : 1 ≤ size) :
    (chunk_by xs size).flatten = xs
    ∧ (∀ c ∈ (chunk_by xs size).dropLast, c.length = size)
    ∧ (∀ c ∈ chunk_by xs size, c ≠ [] ∧ c.length ≤ size)
    ∧ chunk_by ([] : List α) size = [] := by
  cases size with
  | zero => omega
  | succ n =>
    obtain ⟨hDrop, hAll⟩ := chunk_by_shape n xs.length xs (Nat.le_refl _)
    exact ⟨chunk_by_flatten n xs.length xs (Nat.le_refl _), hDrop, hAll,
      chunk_by_nil _⟩

theorem chunk_by_spec_witness :
    1 ≤ 2
    ∧ ((chunk_by [10, 20, 30, 40, 50] 2).flatten = [10, 20, 30, 40, 50]
      ∧ (∀ c ∈ (chunk_by [10, 20, 30, 40, 50] 2).dropLast, c.length = 2)
      ∧ (∀ c ∈ chunk_by [10, 20, 30, 40, 50] 2, c ≠ [] ∧ c.length ≤ 2)
      ∧ chunk_by ([] : List Nat) 2 = []) :=
  ⟨by decide, chunk_by_spec Nat [10, 20, 30, 40, 50] 2 (by decide)⟩

theorem softAfter_zero (hb S : Nat) (hS : 0 < S) :
    softAfter hb S 0 = softIc hb S := by
  have h0 : (0 == S) = false := by simp; omega
  have h1 : ¬ (0 = S) := by omega
  simp [softAfter, softIc, initInterchange, h0, h1]

theorem tick_softAfter (hb S k : Nat) (hS : 0 < S) (hk : k < S) :
    tick (softAfter hb S k) emptyTick = softAfter hb S (k + 1) := by
  have hkS : (k == S) = false := by simp; omega
  have hkS' : ¬ (k = S) := by omega
  rcases Nat.eq_zero_or_pos k with hk0 | hk0
  · subst hk0
    simp [tick, softAfter, emptyTick, quietTick, parentOk, ownReport, ownReportMsg,
      List.range_succ, List.replicate_succ', hkS, hkS', Nat.pos_iff_ne_zero.mp hS]
  · have hk0' : ¬ k = 0 := by omega
    simp [tick, softAfter, emptyTick, quietTick, parentOk, ownReport, ownReportMsg,
      List.range_succ, List.replicate_succ', hkS, hkS', hk0',
      Nat.pos_iff_ne_zero.mp hS]

theorem tickN_softAfter (hb S k : Nat) (hS : 0 < S) (hk : k ≤ S) :
    tickN (softIc hb S) emptyTick k = softAfter hb S k := by
  induction k with
  | zero => rw [tickN]; exact (softAfter_zero hb S hS).symm
  | succ k ih =>
    rw [tickN, ih (by omega), tick_softAfter hb S k hS (by omega)]

theorem tickN_shift (ic : Interchange) (inp : TickInput) (k : Nat) :
    tickN ic inp (k + 1) = tickN (tick ic inp) inp k := by
  induction k with
  | zero => rfl
  | succ k ih => rw [tickN, ih, tickN]

theorem runLoop_replicate_no_quit (inp : TickInput) :
    ∀ (k : Nat) (ic : Interchange),
      (∀ j, j ≤ k → (tickN ic inp j).time_to_quit = false) →
      runLoop ic (List.replicate k inp) = tickN ic inp k := by
  intro k
  induction k with
  | zero => intro ic _; rfl
  | succ k ih =>
    intro ic h
    have h1 : (tick ic inp).time_to_quit = false := h 1 (by omega)
    rw [List.replicate_succ]
    simp only [runLoop, h1, Bool.false_eq_true, if_false]
    rw [tickN_shift]
    exact ih (tick ic inp) (fun j hj => by
      rw [← tickN_shift]; exact h (j + 1) (by omega))

theorem runLoop_replicate_quit_last (inp : TickInput) :
    ∀ (k : Nat) (ic : Interchange),
      (∀ j, j ≤ k → (tickN ic inp j).time_to_quit = false) →
      (tickN ic inp (k + 1)).time_to_quit = true →
      runLoop ic (List.replicate (k + 1) inp) = icShutdown (tickN ic inp (k + 1)) := by
  intro k
  induction k with
  | zero =>
    intro ic _ hq
    have hq' : (tick ic inp).time_to_quit = true := hq
    rw [List.replicate_succ]
    simp only [runLoop, hq', if_true]
    rfl
  | succ k ih =>
    intro ic h hq
    have h1 : (tick ic inp).time_to_quit = false := h 1 (by omega)
    rw [List.replicate_succ]
    simp only [runLoop, h1, Bool.false_eq_true, if_false]
    rw [tickN_shift ic inp (k + 1)]
    exact ih (tick ic inp)
      (fun j hj => by rw [← tickN_shift]; exact h (j + 1) (by omega))
      (by rw [← tickN_shift]; exact hq)

theorem runLoop_soft_terminal (hb S : Nat) (hS : 0 < S) :
    runLoop (softIc hb S) (List.replicate S emptyTick)
      = icShutdown (softAfter hb S S) := by
  obtain ⟨T, rfl⟩ : ∃ T, S = T + 1 := ⟨S - 1, by omega⟩
  rw [runLoop_replicate_quit_last emptyTick T (softIc hb (T + 1))
    (fun j hj => by
      rw [tickN_softAfter hb (T + 1) j hS (by omega)]
      simp [softAfter]; omega)
    (by
      rw [tickN_softAfter hb (T + 1) (T + 1) hS (by omega)]
      simp [softAfter])]
  rw [tickN_softAfter hb (T + 1) (T + 1) hS (by omega)]

theorem hardAfter_zero (hb S H : Nat) (hH : 0 < H) :
    hardAfter hb S H 0 = hardIc hb S H := by
  have h0 : (0 == H) = false := by simp; omega
  have h1 : ¬ (0 = H) := by omega
  simp [hardAfter, hardIc, initInterchange, h0, h1]

theorem tick_hardAfter (hb S H k : Nat) (hS : 0 < S) (hSH : S < H) (hk : k < H) :
    tick (hardAfter hb S H k) emptyTick = hardAfter hb S H (k + 1) := by
  have hkH : (k == H) = false := by simp; omega
  have hkH' : ¬ (k = H) := by omega
  have hH0 : ¬ (H = 0) := by omega
  rcases Nat.eq_zero_or_pos k with hk0 | hk0
  · subst hk0
    simp [tick, hardAfter, emptyTick, quietTick, parentOk, ownReport, ownReportMsg,
      List.range_succ, List.replicate_succ', hkH, hkH', hH0,
      Nat.pos_iff_ne_zero.mp hS]
  · have hk0' : ¬ k = 0 := by omega
    simp [tick, hardAfter, emptyTick, quietTick, parentOk, ownReport, ownReportMsg,
      List.range_succ, List.replicate_succ', hkH, hkH', hH0, hk0',
      Nat.pos_iff_ne_zero.mp hS]

theorem tickN_hardAfter (hb S H k : Nat) (hS : 0 < S) (hSH : S < H) (hk : k ≤ H) :
    tickN (hardIc hb S H) emptyTick k = hardAfter hb S H k := by
  induction k with
  | zero => rw [tickN]; exact (hardAfter_zero hb S H (by omega)).symm
  | succ k ih =>
    rw [tickN, ih (by omega), tick_hardAfter hb S H k hS hSH (by omega)]

theorem runLoop_hard_terminal (hb S H : Nat) (hS : 0 < S) (hSH : S < H) :
    runLoop (hardIc hb S H) (List.replicate H emptyTick)
      = icShutdown (hardAfter hb S H H) := by
  obtain ⟨T, rfl⟩ : ∃ T, H = T + 1 := ⟨H - 1, by omega⟩
  rw [runLoop_replicate_quit_last emptyTick T (hardIc hb S (T + 1))
    (fun j hj => by
      rw [tickN_hardAfter hb S (T + 1) j hS hSH (by omega)]
      simp [hardAfter]; omega)
    (by
      rw [tickN_hardAfter hb S (T + 1) (T + 1) hS hSH (by omega)]
      simp [hardAfter])]
  rw [tickN_hardAfter hb S (T + 1) (T + 1) hS hSH (by omega)]

theorem noIdleAfter_zero (hb : Nat) (pp : Option Nat) :
    noIdleAfter hb pp 0 = noIdleIc hb pp := by
  simp [noIdleAfter, noIdleIc, initInterchange]

theorem tick_noIdleAfter (hb k r : Nat) (pp : Option Nat)
    (hok : parentOk (noIdleAfter hb pp k) (quietTick r) = true) :
    tick (noIdleAfter hb pp k) (quietTick r) = noIdleAfter hb pp (k + 1) := by
  simp only [noIdleAfter, quietTick, ownReportMsg] at hok
  simp [tick, hok, noIdleAfter, quietTick, ownReport, ownReportMsg,
    List.replicate_succ']

theorem tickN_noIdleAfter (hb k r : Nat) (pp : Option Nat)
    (hok : parentOk (noIdleIc hb pp) (quietTick r) = true) :
    tickN (noIdleIc hb pp) (quietTick r) k = noIdleAfter hb pp k := by
  induction k with
  | zero => rw [tickN]; exact (noIdleAfter_zero hb pp).symm
  | succ k ih =>
    have hok2 : parentOk (noIdleAfter hb pp k) (quietTick r) = true := by
      simp only [parentOk, noIdleAfter, noIdleIc, initInterchange] at hok ⊢
      exact hok
    rw [tickN, ih, tick_noIdleAfter hb k r pp hok2]

/-- A prefix of quiet no-quit ticks followed by further inputs. -/
theorem runLoop_append_no_quit (inp : TickInput) :
    ∀ (k : Nat) (ic : Interchange) (bs : List TickInput),
      (∀ j, j ≤ k → (tickN ic inp j).time_to_quit = false) →
      runLoop ic (List.replicate k inp ++ bs) = runLoop (tickN ic inp k) bs := by
  intro k
  induction k with
  | zero => intro ic bs _; rfl
  | succ k ih =>
    intro ic bs h
    have h1 : (tick ic inp).time_to_quit = false := h 1 (by omega)
    rw [List.replicate_succ, List.cons_append]
    simp only [runLoop, h1, Bool.false_eq_true, if_false]
    rw [tickN_shift]
    exact ih (tick ic inp) bs (fun j hj => by
      rw [← tickN_shift]; exact h (j + 1) (by omega))

theorem tick_endpoint_id (ic : Interchange) (inp : TickInput) :
    (tick ic inp).endpoint_id = ic.endpoint_id := by
  simp only [tick]
  split
  · split
    · split
      · rfl
      · rfl
    · split
      · rfl
      · rfl
  · rfl

/-- Claim C1: in soft-only mode (`idle_heartbeats_soft = S > 0`, hard
threshold disabled), for every `heartbeat_period > 0`: after exactly `S`
consecutive idle ticks with zero inbound activity the interchange marks
itself terminal (and not after any fewer), and over the whole idle episode
exactly one entered-idle transition log line is emitted, at info level,
naming idle_heartbeats_soft with a shutdown countdown of
`(S - 1) * heartbeat_period` seconds, plus exactly one limit-reached log
line, at info level. -/
theorem soft_idle_episode_spec (hb S : Nat) (hhb : 0 < hb) (hS : 0 < S) :
    (runLoop (softIc hb S) (List.replicate S emptyTick)).time_to_quit = true
    ∧ (∀ k, k < S →
        (runLoop (softIc hb S) (List.replicate k emptyTick)).time_to_quit = false)
    ∧ ((runLoop (softIc hb S) (List.replicate S emptyTick)).logs.countP
        isEnteredIdleLine) = 1
    ∧ (⟨.info, .enteredIdleSoft ((S - 1) * hb)⟩ : LogLine)
        ∈ (runLoop (softIc hb S) (List.replicate S emptyTick)).logs
    ∧ ((runLoop (softIc hb S) (List.replicate S emptyTick)).logs.countP
        isLimitLine) = 1
    ∧ (⟨.info, .softLimitReached⟩ : LogLine)
        ∈ (runLoop (softIc hb S) (List.replicate S emptyTick)).logs := by
  have hfin := runLoop_soft_terminal hb S hS
  have hS0 : ¬ (S = 0) := by omega
  refine ⟨?_, ?_, ?_, ?_, ?_, ?_⟩
  · rw [hfin]; simp [icShutdown, softAfter]
  · intro k hk
    rw [runLoop_replicate_no_quit emptyTick k (softIc hb S)
      (fun j hj => by
        rw [tickN_softAfter hb S j hS (by omega)]
        simp [softAfter]; omega)]
    rw [tickN_softAfter hb S k hS (by omega)]
    simp [softAfter]; omega
  · rw [hfin]
    simp [icShutdown, softAfter, hS0, isEnteredIdleLine, List.countP_cons]
  · rw [hfin]
    simp [icShutdown, softAfter, hS0]
  · rw [hfin]
    simp [icShutdown, softAfter, hS0, isLimitLine, List.countP_cons]
  · rw [hfin]
    simp [icShutdown, softAfter, hS0]

theorem soft_idle_episode_spec_witness :
    0 < 2 ∧ 0 < 3
    ∧ ((runLoop (softIc 2 3) (List.replicate 3 emptyTick)).time_to_quit = true
      ∧ (∀ k, k < 3 →
          (runLoop (softIc 2 3) (List.replicate k emptyTick)).time_to_quit = false)
      ∧ ((runLoop (softIc 2 3) (List.replicate 3 emptyTick)).logs.countP
          isEnteredIdleLine) = 1
      ∧ (⟨.info, .enteredIdleSoft ((3 - 1) * 2)⟩ : LogLine)
          ∈ (runLoop (softIc 2 3) (List.replicate 3 emptyTick)).logs
      ∧ ((runLoop (softIc 2 3) (List.replicate 3 emptyTick)).logs.countP
          isLimitLine) = 1
      ∧ (⟨.info, .softLimitReached⟩ : LogLine)
          ∈ (runLoop (softIc 2 3) (List.replicate 3 emptyTick)).logs) :=
  ⟨by decide, by decide, soft_idle_episode_spec 2 3 (by decide) (by decide)⟩

/-- Claim C2: in soft+hard mode (`0 < S < H`), for every run with zero
inbound activity: the possibly-idle entered-idle message is logged exactly
once, at info level, naming idle_heartbeats_hard with a shutdown countdown
of `(H - S - 1) * heartbeat_period` seconds; the soft-only entered-idle
message never appears; and the interchange marks terminal at idle tick `H`
(and at no tick before `H`, in particular not at tick `S`), logging the
hard-limit line at warning level. -/
theorem hard_idle_episode_spec (hb S H : Nat) (hS : 0 < S) (hSH : S < H) :
    (runLoop (hardIc hb S H) (List.replicate H emptyTick)).time_to_quit = true
    ∧ (∀ k, k < H →
        (runLoop (hardIc hb S H) (List.replicate k emptyTick)).time_to_quit = false)
    ∧ ((runLoop (hardIc hb S H) (List.replicate H emptyTick)).logs.countP
        isEnteredIdleLine) = 1
    ∧ (⟨.info, .enteredIdleHard ((H - S - 1) * hb)⟩ : LogLine)
        ∈ (runLoop (hardIc hb S H) (List.replicate H emptyTick)).logs
    ∧ ((runLoop (hardIc hb S H) (List.replicate H emptyTick)).logs.countP
        isEnteredIdleSoftLine) = 0
    ∧ ((runLoop (hardIc hb S H) (List.replicate H emptyTick)).logs.countP
        isLimitLine) = 1
    ∧ (⟨.warning, .hardLimitReached⟩ : LogLine)
        ∈ (runLoop (hardIc hb S H) (List.replicate H emptyTick)).logs := by
  have hfin := runLoop_hard_terminal hb S H hS hSH
  have hH0 : ¬ (H = 0) := by omega
  refine ⟨?_, ?_, ?_, ?_, ?_, ?_, ?_⟩
  · rw [hfin]; simp [icShutdown, hardAfter]
  · intro k hk
    rw [runLoop_replicate_no_quit emptyTick k (hardIc hb S H)
      (fun j hj => by
        rw [tickN_hardAfter hb S H j hS hSH (by omega)]
        simp [hardAfter]; omega)]
    rw [tickN_hardAfter hb S H k hS hSH (by omega)]
    simp [hardAfter]; omega
  · rw [hfin]
    simp [icShutdown, hardAfter, hH0, isEnteredIdleLine, List.countP_cons]
  · rw [hfin]
    simp [icShutdown, hardAfter, hH0]
  · rw [hfin]
    simp [icShutdown, hardAfter, hH0, isEnteredIdleSoftLine, List.countP_cons]
  · rw [hfin]
    simp [icShutdown, hardAfter, hH0, isLimitLine, List.countP_cons]
  · rw [hfin]
    simp [icShutdown, hardAfter, hH0]

theorem hard_idle_episode_spec_witness :
    0 < 2 ∧ 2 < 4
    ∧ ((runLoop (hardIc 1 2 4) (List.replicate 4 emptyTick)).time_to_quit = true
      ∧ (∀ k, k < 4 →
          (runLoop (hardIc 1 2 4) (List.replicate k emptyTick)).time_to_quit = false)
      ∧ ((runLoop (hardIc 1 2 4) (List.replicate 4 emptyTick)).logs.countP
          isEnteredIdleLine) = 1
      ∧ (⟨.info, .enteredIdleHard ((4 - 2 - 1) * 1)⟩ : LogLine)
          ∈ (runLoop (hardIc 1 2 4) (List.replicate 4 emptyTick)).logs
      ∧ ((runLoop (hardIc 1 2 4) (List.replicate 4 emptyTick)).logs.countP
          isEnteredIdleSoftLine) = 0
      ∧ ((runLoop (hardIc 1 2 4) (List.replicate 4 emptyTick)).logs.countP
          isLimitLine) = 1
      ∧ (⟨.warning, .hardLimitReached⟩ : LogLine)
          ∈ (runLoop (hardIc 1 2 4) (List.replicate 4 emptyTick)).logs) :=
  ⟨by decide, by decide, hard_idle_episode_spec 1 2 4 (by decide) (by decide)⟩

/-- Claim C3: for every idle state and every number of elapsed idle ticks,
the arrival of any inbound Task or Result during the idle episode resets
the state to `ACTIVE` (with the idle counter cleared), logs the
moved-to-active transition exactly once — the tick appends exactly one log
line, a "Moved to active state due to ..." line — and clears the idle
marker from the process-status string. -/
theorem unidle_resets_to_active (ic : Interchange) (inp : TickInput)
    (hok : parentOk ic inp = true)
    (hidle : ic.state ≠ IcState.ACTIVE)
    (hact : inp.tasks ≠ [] ∨ inp.results ≠ []) :
    (tick ic inp).state = IcState.ACTIVE
    ∧ (tick ic inp).logs
        = ic.logs ++ [⟨.info, .movedToActive (activityReason inp)⟩]
    ∧ ((tick ic inp).logs.countP isMovedToActiveLine)
        = ic.logs.countP isMovedToActiveLine + 1
    ∧ (tick ic inp).proc_status = ProcStatus.base
    ∧ (tick ic inp).proc_status_updates
        = ic.proc_status_updates ++ [ProcStatus.base]
    ∧ (tick ic inp).idle_heartbeats = 0 := by
  have hA : (!inp.tasks.isEmpty || !inp.results.isEmpty) = true := by
    rcases hact with h | h <;> simp [List.isEmpty_iff, h]
  refine ⟨?_, ?_, ?_, ?_, ?_, ?_⟩ <;>
    simp [tick, hok, hA, hidle, isMovedToActiveLine, List.countP_append,
      List.countP_cons]

theorem unidle_resets_to_active_witness :
    parentOk unidleWitnessIc unidleWitnessInput = true
    ∧ unidleWitnessIc.state ≠ IcState.ACTIVE
    ∧ (unidleWitnessInput.tasks ≠ [] ∨ unidleWitnessInput.results ≠ [])
    ∧ ((tick unidleWitnessIc unidleWitnessInput).state = IcState.ACTIVE
      ∧ (tick unidleWitnessIc unidleWitnessInput).logs
          = unidleWitnessIc.logs
            ++ [⟨.info, .movedToActive (activityReason unidleWitnessInput)⟩]
      ∧ ((tick unidleWitnessIc unidleWitnessInput).logs.countP
            isMovedToActiveLine)
          = unidleWitnessIc.logs.countP isMovedToActiveLine + 1
      ∧ (tick unidleWitnessIc unidleWitnessInput).proc_status = ProcStatus.base
      ∧ (tick unidleWitnessIc unidleWitnessInput).proc_status_updates
          = unidleWitnessIc.proc_status_updates ++ [ProcStatus.base]
      ∧ (tick unidleWitnessIc unidleWitnessInput).idle_heartbeats = 0) :=
  ⟨by decide, by decide, Or.inr (by decide),
    unidle_resets_to_active unidleWitnessIc unidleWitnessInput
      (by decide) (by decide) (Or.inr (by decide))⟩

/-- Claim C4: during every idle episode the process-status string is set
to an idle-flavored value on every idle tick — `idleCountdown` values
("[idle; shut down in Ns]") in soft-only mode and `possiblyIdleCountdown`
values ("[possibly idle; shut down in Ns]") in soft+hard mode, the soft
phase `k ≤ S` included when the hard threshold is enabled — so that the
count of idle-flavored status updates equals the number of idle ticks
elapsed before termination. -/
theorem idle_status_updates_every_tick (hb S H k : Nat) (hS : 0 < S) :
    (k ≤ S →
      (runLoop (softIc hb S) (List.replicate k emptyTick)).proc_status_updates
        = (List.range k).map (fun i => .idleCountdown ((S - (i + 1)) * hb))
      ∧ ((runLoop (softIc hb S)
            (List.replicate k emptyTick)).proc_status_updates.countP
          ProcStatus.isIdleFlavored) = k)
    ∧ (S < H → k ≤ H →
      (runLoop (hardIc hb S H) (List.replicate k emptyTick)).proc_status_updates
        = (List.range k).map (fun i => .possiblyIdleCountdown ((H - (i + 1)) * hb))
      ∧ ((runLoop (hardIc hb S H)
            (List.replicate k emptyTick)).proc_status_updates.countP
          ProcStatus.isIdleFlavored) = k) := by
  constructor
  · intro hk
    have hupd : (runLoop (softIc hb S)
          (List.replicate k emptyTick)).proc_status_updates
        = (List.range k).map (fun i => .idleCountdown ((S - (i + 1)) * hb)) := by
      rcases eq_or_lt_of_le hk with hkS | hlt
      · rw [hkS, runLoop_soft_terminal hb S hS]
        rfl
      · rw [runLoop_replicate_no_quit emptyTick k (softIc hb S)
          (fun j hj => by
            rw [tickN_softAfter hb S j hS (by omega)]
            simp [softAfter]; omega)]
        rw [tickN_softAfter hb S k hS (by omega)]
        rfl
    refine ⟨hupd, ?_⟩
    rw [hupd, List.countP_map]
    have hcomp : (ProcStatus.isIdleFlavored ∘
        fun i => ProcStatus.idleCountdown ((S - (i + 1)) * hb)) = fun _ => true :=
      funext fun i => rfl
    rw [hcomp]
    simp
  · intro hSH hk
    have hupd : (runLoop (hardIc hb S H)
          (List.replicate k emptyTick)).proc_status_updates
        = (List.range k).map
            (fun i => .possiblyIdleCountdown ((H - (i + 1)) * hb)) := by
      rcases eq_or_lt_of_le hk with hkH | hlt
      · rw [hkH, runLoop_hard_terminal hb S H hS hSH]
        rfl
      · rw [runLoop_replicate_no_quit emptyTick k (hardIc hb S H)
          (fun j hj => by
            rw [tickN_hardAfter hb S H j hS hSH (by omega)]
            simp [hardAfter]; omega)]
        rw [tickN_hardAfter hb S H k hS hSH (by omega)]
        rfl
    refine ⟨hupd, ?_⟩
    rw [hupd, List.countP_map]
    have hcomp : (ProcStatus.isIdleFlavored ∘
        fun i => ProcStatus.possiblyIdleCountdown ((H - (i + 1)) * hb))
        = fun _ => true :=
      funext fun i => rfl
    rw [hcomp]
    simp

theorem idle_status_updates_every_tick_witness :
    0 < 2
    ∧ ((3 ≤ 2 →
        (runLoop (softIc 1 2) (List.replicate 3 emptyTick)).proc_status_updates
          = (List.range 3).map (fun i => .idleCountdown ((2 - (i + 1)) * 1))
        ∧ ((runLoop (softIc 1 2)
              (List.replicate 3 emptyTick)).proc_status_updates.countP
            ProcStatus.isIdleFlavored) = 3)
      ∧ (2 < 4 → 3 ≤ 4 →
        (runLoop (hardIc 1 2 4) (List.replicate 3 emptyTick)).proc_status_updates
          = (List.range 3).map (fun i => .possiblyIdleCountdown ((4 - (i + 1)) * 1))
        ∧ ((runLoop (hardIc 1 2 4)
              (List.replicate 3 emptyTick)).proc_status_updates.countP
            ProcStatus.isIdleFlavored) = 3)) :=
  ⟨by decide, idle_status_updates_every_tick 1 2 4 3 (by decide)⟩

/-- Claim C5: when a `parent_pid` is supplied and differs from the actual
parent id at startup, the interchange logs refusing-to-start at warning
level, marks terminal and publishes nothing (the loop is never entered);
when it matches at startup but the actual parent id later changes, the
interchange logs the parent-gone-away line at warning level — never the
refusing-to-start line — marks terminal, and takes the graceful shutdown
path (the final departure report is the last message published). -/
theorem parent_guard_spec (hb p q j : Nat) (inputs : List TickInput)
    (hpq : q ≠ p) :
    (icStart (noIdleIc hb (some p)) q inputs).time_to_quit = true
    ∧ (icStart (noIdleIc hb (some p)) q inputs).logs
        = [⟨.warning, .refusingToStart⟩]
    ∧ (icStart (noIdleIc hb (some p)) q inputs).published = []
    ∧ (icStart (noIdleIc hb (some p)) p
        (List.replicate j (quietTick p) ++ [quietTick q])).time_to_quit = true
    ∧ (⟨.warning, .parentGoneAway p⟩ : LogLine)
        ∈ (icStart (noIdleIc hb (some p)) p
            (List.replicate j (quietTick p) ++ [quietTick q])).logs
    ∧ ((icStart (noIdleIc hb (some p)) p
        (List.replicate j (quietTick p) ++ [quietTick q])).logs.countP
          isRefusingLine) = 0
    ∧ (icStart (noIdleIc hb (some p)) p
        (List.replicate j (quietTick p) ++ [quietTick q])).published.getLast?
      = some (.statusReport (finalReport "ep")) := by
  have hbeq : (q == p) = false := by simp [hpq]
  have hok : parentOk (noIdleIc hb (some p)) (quietTick p) = true := by
    simp [parentOk, noIdleIc, initInterchange, quietTick]
  have hquiet : ∀ i, i ≤ j →
      (tickN (noIdleIc hb (some p)) (quietTick p) i).time_to_quit = false := by
    intro i hi
    rw [tickN_noIdleAfter hb i p (some p) hok]
    rfl
  have hstart : icStart (noIdleIc hb (some p)) p
      (List.replicate j (quietTick p) ++ [quietTick q])
      = runLoop (noIdleIc hb (some p))
          (List.replicate j (quietTick p) ++ [quietTick q]) := by
    simp [icStart, noIdleIc, initInterchange]
  have hko : parentOk (noIdleAfter hb (some p) j) (quietTick q) = false := by
    simp [parentOk, noIdleAfter, quietTick, hpq]
  have hbad : tick (noIdleAfter hb (some p) j) (quietTick q)
      = { noIdleAfter hb (some p) j with
          time_to_quit := true
          logs := [⟨.warning, .parentGoneAway p⟩] } := by
    simp only [noIdleAfter] at hko
    simp [tick, hko, noIdleAfter]
  have hrun : runLoop (noIdleIc hb (some p))
      (List.replicate j (quietTick p) ++ [quietTick q])
      = icShutdown { noIdleAfter hb (some p) j with
          time_to_quit := true
          logs := [⟨.warning, .parentGoneAway p⟩] } := by
    rw [runLoop_append_no_quit (quietTick p) j (noIdleIc hb (some p))
        [quietTick q] hquiet,
      tickN_noIdleAfter hb j p (some p) hok]
    simp only [runLoop, hbad]
    rfl
  refine ⟨?_, ?_, ?_, ?_, ?_, ?_, ?_⟩
  · simp [icStart, noIdleIc, initInterchange, hbeq]
  · simp [icStart, noIdleIc, initInterchange, hbeq]
  · simp [icStart, noIdleIc, initInterchange, hbeq]
  · rw [hstart, hrun]; rfl
  · rw [hstart, hrun]; simp [icShutdown]
  · rw [hstart, hrun]; simp [icShutdown, isRefusingLine, List.countP_cons]
  · rw [hstart, hrun]
    simp [icShutdown, noIdleAfter, finalReport]

theorem parent_guard_spec_witness :
    (1 : Nat) ≠ 5
    ∧ ((icStart (noIdleIc 1 (some 5)) 1 []).time_to_quit = true
      ∧ (icStart (noIdleIc 1 (some 5)) 1 []).logs
          = [⟨.warning, .refusingToStart⟩]
      ∧ (icStart (noIdleIc 1 (some 5)) 1 []).published = []
      ∧ (icStart (noIdleIc 1 (some 5)) 5
          (List.replicate 2 (quietTick 5) ++ [quietTick 1])).time_to_quit = true
      ∧ (⟨.warning, .parentGoneAway 5⟩ : LogLine)
          ∈ (icStart (noIdleIc 1 (some 5)) 5
              (List.replicate 2 (quietTick 5) ++ [quietTick 1])).logs
      ∧ ((icStart (noIdleIc 1 (some 5)) 5
          (List.replicate 2 (quietTick 5) ++ [quietTick 1])).logs.countP
            isRefusingLine) = 0
      ∧ (icStart (noIdleIc 1 (some 5)) 5
          (List.replicate 2 (quietTick 5) ++ [quietTick 1])).published.getLast?
        = some (.statusReport (finalReport "ep"))) :=
  ⟨by decide, parent_guard_spec 1 5 1 2 [] (by decide)⟩

/-- Claim C6: for every configuration and every shutdown path taken by the
loop (any input trace that sets the terminal flag), the final
EPStatusReport published before exit carries `heartbeat_period = 0` — the
departure sentinel — in its `global_state`, and carries the interchange's
endpoint id. -/
theorem final_status_report_spec (ic : Interchange) (inputs : List TickInput)
    (h0 : ic.time_to_quit = false)
    (hq : (runLoop ic inputs).time_to_quit = true) :
    (runLoop ic inputs).published.getLast?
      = some (.statusReport (finalReport ic.endpoint_id))
    ∧ (finalReport ic.endpoint_id).endpoint_id = ic.endpoint_id
    ∧ lookupState (finalReport ic.endpoint_id).global_state "heartbeat_period"
      = some (.nat 0) := by
  refine ⟨?_, rfl, by simp [lookupState, finalReport]⟩
  induction inputs generalizing ic with
  | nil =>
    rw [runLoop] at hq
    rw [hq] at h0
    cases h0
  | cons inp rest ih =>
    by_cases h2 : (tick ic inp).time_to_quit = true
    · simp only [runLoop, h2, if_true]
      simp [icShutdown, tick_endpoint_id]
    · have h2' : (tick ic inp).time_to_quit = false := by
        simpa using h2
      simp only [runLoop, h2', Bool.false_eq_true, if_false]
      simp only [runLoop, h2', Bool.false_eq_true, if_false] at hq
      have := ih (tick ic inp) h2' hq
      rwa [tick_endpoint_id] at this

theorem final_status_report_spec_witness :
    (softIc 1 1).time_to_quit = false
    ∧ (runLoop (softIc 1 1) [emptyTick]).time_to_quit = true
    ∧ ((runLoop (softIc 1 1) [emptyTick]).published.getLast?
        = some (.statusReport (finalReport (softIc 1 1).endpoint_id))
      ∧ (finalReport (softIc 1 1).endpoint_id).endpoint_id
          = (softIc 1 1).endpoint_id
      ∧ lookupState (finalReport (softIc 1 1).endpoint_id).global_state
          "heartbeat_period" = some (.nat 0)) :=
  ⟨by decide, by decide,
    final_status_report_spec (softIc 1 1) [emptyTick] (by decide) (by decide)⟩

/-- Claim C7: every EPStatusReport arriving on the results-passthrough
path is republished to the Publisher verbatim — the same report value,
hence the same endpoint id and `global_state` — among the relayed messages
that the tick appends strictly before its own synthesized status report. -/
theorem status_report_relay_spec (ic : Interchange) (inp : TickInput)
    (r : EPStatusReport)
    (hok : parentOk ic inp = true)
    (hr : ResultItem.report r ∈ inp.results) :
    (tick ic inp).published
      = ic.published ++ inp.results.map relayOutbound
          ++ [.statusReport (ownReport ic)]
    ∧ OutboundMsg.statusReport r ∈ inp.results.map relayOutbound := by
  constructor
  · simp only [tick, hok, if_true]
    split
    · split
      · rfl
      · rfl
    · split
      · rfl
      · rfl
  · exact List.mem_map.mpr ⟨ResultItem.report r, hr, rfl⟩

theorem status_report_relay_spec_witness :
    parentOk relayWitnessIc relayWitnessInput = true
    ∧ ResultItem.report relayWitnessReport ∈ relayWitnessInput.results
    ∧ ((tick relayWitnessIc relayWitnessInput).published
        = relayWitnessIc.published
            ++ relayWitnessInput.results.map relayOutbound
            ++ [.statusReport (ownReport relayWitnessIc)]
      ∧ OutboundMsg.statusReport relayWitnessReport
          ∈ relayWitnessInput.results.map relayOutbound) :=
  ⟨by decide, by decide,
    status_report_relay_spec relayWitnessIc relayWitnessInput
      relayWitnessReport (by decide) (by decide)⟩

/-- Claim C10: when `idle_heartbeats_soft` is 0 (idle shutdown not
configured), the main loop never leaves `ACTIVE`, never writes an
idle-flavored process-status update and never logs, no matter how many
consecutive quiet ticks elapse, and it keeps running (the terminal flag
stays unset) until an external quiesce signal arrives, upon which it
marks terminal. -/
theorem no_idle_when_not_configured (hb k : Nat) :
    (runLoop (noIdleIc hb none) (List.replicate k emptyTick)).state
      = IcState.ACTIVE
    ∧ (runLoop (noIdleIc hb none) (List.replicate k emptyTick)).time_to_quit
      = false
    ∧ (runLoop (noIdleIc hb none)
        (List.replicate k emptyTick)).proc_status_updates = []
    ∧ (runLoop (noIdleIc hb none) (List.replicate k emptyTick)).logs = []
    ∧ (runLoop (noIdleIc hb none)
        (List.replicate k emptyTick ++ [quiesceTick])).time_to_quit = true := by
  have hok : parentOk (noIdleIc hb none) (quietTick 0) = true := by
    simp [parentOk, noIdleIc, initInterchange]
  have hquiet : ∀ j, j ≤ k →
      (tickN (noIdleIc hb none) emptyTick j).time_to_quit = false := by
    intro j hj
    rw [emptyTick, tickN_noIdleAfter hb j 0 none hok]
    rfl
  have hrun : runLoop (noIdleIc hb none) (List.replicate k emptyTick)
      = noIdleAfter hb none k := by
    rw [runLoop_replicate_no_quit emptyTick k (noIdleIc hb none) hquiet,
      emptyTick, tickN_noIdleAfter hb k 0 none hok]
  refine ⟨by rw [hrun]; rfl, by rw [hrun]; rfl, by rw [hrun]; rfl,
    by rw [hrun]; rfl, ?_⟩
  rw [runLoop_append_no_quit emptyTick k (noIdleIc hb none) [quiesceTick] hquiet,
    emptyTick, tickN_noIdleAfter hb k 0 none hok]
  have hq : (tick (noIdleAfter hb none k) quiesceTick).time_to_quit = true := by
    simp [tick, parentOk, noIdleAfter, quiesceTick]
  simp only [runLoop, hq, if_true]
  simp [icShutdown, hq]

theorem qrun_append (s : BrokerState α) (a b : List (QEvent α)) :
    qrun s (a ++ b) = qrun (qrun s a) b :=
  List.foldl_append qstep s a b

theorem qrun_publish (s : BrokerState α) (msgs : List α) :
    qrun s (msgs.map .publish) = { s with pending := s.pending ++ msgs } := by
  induction msgs generalizing s with
  | nil => simp [qrun]
  | cons m ms ih =>
    simp only [List.map_cons, qrun, List.foldl_cons]
    have := ih (qstep s (.publish m))
    simp only [qrun] at this
    rw [this]
    simp [qstep]

theorem qrun_deliver (k : Nat) :
    ∀ (p d : List α),
      qrun ⟨p, true, d⟩ (List.replicate k .deliver)
        = ⟨p.drop k, true, d ++ p.take k⟩ := by
  induction k with
  | zero => intro p d; simp [qrun]
  | succ k ih =>
    intro p d
    rw [List.replicate_succ]
    simp only [qrun, List.foldl_cons]
    cases p with
    | nil =>
      have := ih ([] : List α) d
      simp only [qrun] at this
      simp [qstep, this]
    | cons m rest =>
      have := ih rest (d ++ [m])
      simp only [qrun] at this
      simp [qstep, this]

/-- Claim C8: for every sequence of messages published to the durable
queue, if the Subscriber disconnects after receiving a prefix of them, the
messages published while no consumer is attached remain queued, and once a
Subscriber reattaches the remaining deliveries hand over exactly the
messages not yet delivered, in publication order — the delivered sequence
over the whole run equals the published sequence, with no message lost and
none duplicated, and with nothing left queued. -/
theorem subscriber_recovery_spec (α : Type) (msgs1 msgs2 : List α) (k : Nat)
    (hk : k ≤ msgs1.length) :
    (qrun (⟨[], true, []⟩ : BrokerState α)
        (msgs1.map .publish ++ List.replicate k .deliver ++ [.disconnect]
          ++ msgs2.map .publish ++ [.reconnect]
          ++ List.replicate (msgs1.length - k + msgs2.length) .deliver)).delivered
      = msgs1 ++ msgs2
    ∧ (qrun (⟨[], true, []⟩ : BrokerState α)
        (msgs1.map .publish ++ List.replicate k .deliver ++ [.disconnect]
          ++ msgs2.map .publish ++ [.reconnect]
          ++ List.replicate (msgs1.length - k + msgs2.length) .deliver)).pending
      = [] := by
  have h1 : qrun (⟨[], true, []⟩ : BrokerState α) (msgs1.map .publish)
      = ⟨msgs1, true, []⟩ := by
    rw [qrun_publish]; simp
  have hstate : qrun (⟨[], true, []⟩ : BrokerState α)
      (msgs1.map .publish ++ List.replicate k .deliver ++ [.disconnect]
        ++ msgs2.map .publish ++ [.reconnect]
        ++ List.replicate (msgs1.length - k + msgs2.length) .deliver)
      = ⟨[], true, msgs1 ++ msgs2⟩ := by
    rw [qrun_append, qrun_append, qrun_append, qrun_append, qrun_append]
    rw [h1, qrun_deliver k msgs1 []]
    have h2 : qrun (⟨msgs1.drop k, true, [] ++ msgs1.take k⟩ : BrokerState α)
        [QEvent.disconnect]
        = ⟨msgs1.drop k, false, [] ++ msgs1.take k⟩ := by
      simp [qrun, qstep]
    rw [h2, qrun_publish]
    have h3 : qrun
        (⟨msgs1.drop k ++ msgs2, false, [] ++ msgs1.take k⟩ : BrokerState α)
        [QEvent.reconnect]
        = ⟨msgs1.drop k ++ msgs2, true, [] ++ msgs1.take k⟩ := by
      simp [qrun, qstep]
    rw [h3, qrun_deliver]
    have hlen : (msgs1.drop k ++ msgs2).length
        ≤ msgs1.length - k + msgs2.length := by
      simp
    rw [List.drop_eq_nil_of_le hlen, List.take_of_length_le hlen]
    simp [← List.append_assoc, List.take_append_drop]
  rw [hstate]
  exact ⟨rfl, rfl⟩

theorem subscriber_recovery_spec_witness :
    2 ≤ List.length [1, 2, 3, 4]
    ∧ ((qrun (⟨[], true, []⟩ : BrokerState Nat)
        (List.map .publish [1, 2, 3, 4] ++ List.replicate 2 .deliver
          ++ [.disconnect] ++ List.map .publish [5, 6] ++ [.reconnect]
          ++ List.replicate (List.length [1, 2, 3, 4] - 2 + List.length [5, 6])
              .deliver)).delivered
      = [1, 2, 3, 4] ++ [5, 6]
    ∧ (qrun (⟨[], true, []⟩ : BrokerState Nat)
        (List.map .publish [1, 2, 3, 4] ++ List.replicate 2 .deliver
          ++ [.disconnect] ++ List.map .publish [5, 6] ++ [.reconnect]
          ++ List.replicate (List.length [1, 2, 3, 4] - 2 + List.length [5, 6])
              .deliver)).pending
      = []) :=
  ⟨by decide, subscriber_recovery_spec Nat [1, 2, 3, 4] [5, 6] 2 (by decide)⟩

end FuncX
